import Mathlib

/-!
Verification of the magicer secure content-classification pipeline.

Shallow embedding of the Rust sources: strings are `List Char`, fallible
operations return `Except`, the filesystem / libmagic engine / system calls
appear as explicit oracle parameters, and `Drop`-based cleanup is made
explicit at each owner's scope exit.
-/

namespace Magicer

/-- Mirrors `str::split('/')` from Rust: splitting the empty string yields
one empty piece, adjacent separators yield empty pieces. -/
def splitOnSlash : List Char → List (List Char)
  | [] => [[]]
  | c :: rest =>
    if c = '/' then [] :: splitOnSlash rest
    else
      match splitOnSlash rest with
      | [] => [[c]]
      | h :: t => (c :: h) :: t

/-- Mirrors `str::contains("//")`. -/
def containsDoubleSlash : List Char → Bool
  | c₁ :: c₂ :: rest => (c₁ = '/' && c₂ = '/') || containsDoubleSlash (c₂ :: rest)
  | _ => false

/-- Validation errors, from `src/domain/errors/mod.rs` (`ValidationError`). -/
inductive ValidationError where
  | invalidCharacter
  | exceedsMaxLength
  | emptyValue
  | absolutePath
  | pathTraversal
  | invalidPath
  | fileNotFound
  deriving DecidableEq, Repr

/-- `RelativePath::new` from `src/domain/value_objects/path.rs`:
rejects a leading `/`, a leading space, a doubled separator, and any
`..` or `.` segment, in that order. -/
def RelativePath.new (path : List Char) : Except ValidationError (List Char) :=
  if path.head? = some '/' then .error .absolutePath
  else if path.head? = some ' ' then .error .invalidPath
  else if containsDoubleSlash path then .error .invalidPath
  else
    let parts := splitOnSlash path
    if parts.any (fun p => p = ['.', '.']) then .error .pathTraversal
    else if parts.any (fun p => p = ['.']) then .error .invalidPath
    else .ok path

/-- Mirrors `PathBuf::push` / `Path::join` for Unix paths at the string
level: an absolute argument replaces the base, otherwise a separator is
inserted unless the base is empty or already ends with one. -/
def pathJoin (base rel : List Char) : List Char :=
  if rel.head? = some '/' then rel
  else if base = [] then rel
  else if base.getLast? = some '/' then base ++ rel
  else base ++ '/' :: rel

/-- One component of a path, as in `std::path::Component`. -/
inductive Component where
  | rootDir
  | curDir
  | parentDir
  | normal (name : List Char)
  deriving DecidableEq, Repr

/-- Mirrors `Path::components()` on Unix: a leading `/` becomes the root
component, a leading `.` piece is kept as the current-directory component,
empty pieces and interior `.` pieces are dropped, `..` pieces are kept. -/
def pathComponents (s : List Char) : List Component :=
  let raw := splitOnSlash s
  let rootPart : List Component := if s.head? = some '/' then [.rootDir] else []
  let curPart : List Component :=
    if s.head? ≠ some '/' ∧ raw.head? = some ['.'] then [.curDir] else []
  rootPart ++ curPart ++
    (raw.filter (fun p => ¬(p = [] ∨ p = ['.']))).map
      (fun p => if p = ['.', '.'] then Component.parentDir else Component.normal p)

/-- `PathSandbox::resolve_path` from
`src/infrastructure/filesystem/sandbox.rs`: joins the validated relative
path onto the base directory and rejects the result unless it still starts
with the base (Rust `Path::starts_with`, a component-wise check). -/
def PathSandbox.resolve_path (base_dir rel : List Char) :
    Except ValidationError (List Char) :=
  let full_path := pathJoin base_dir rel
  if (pathComponents base_dir).isPrefixOf (pathComponents full_path) then
    .ok full_path
  else .error .pathTraversal

theorem splitOnSlash_ne_nil (s : List Char) : splitOnSlash s ≠ [] := by
  induction s with
  | nil => simp [splitOnSlash]
  | cons c rest ih =>
    simp only [splitOnSlash]
    split
    · simp
    · cases h : splitOnSlash rest with
      | nil => simp
      | cons h t => simp

theorem splitOnSlash_append (a b : List Char) :
    splitOnSlash (a ++ '/' :: b) = splitOnSlash a ++ splitOnSlash b := by
  induction a with
  | nil => simp [splitOnSlash]
  | cons c rest ih =>
    simp only [List.cons_append, splitOnSlash]
    split
    · simp [ih]
    · rw [List.append_eq, ih]
      cases h : splitOnSlash rest with
      | nil => exact absurd h (splitOnSlash_ne_nil rest)
      | cons hd tl => simp

/-- The component mapping applied to each kept raw piece. -/
def toComponent (p : List Char) : Component :=
  if p = ['.', '.'] then Component.parentDir else Component.normal p

theorem pathComponents_eq (s : List Char) :
    pathComponents s =
      (if s.head? = some '/' then [Component.rootDir] else []) ++
      (if s.head? ≠ some '/' ∧ (splitOnSlash s).head? = some ['.'] then
        [Component.curDir] else []) ++
      ((splitOnSlash s).filter (fun p => ¬(p = [] ∨ p = ['.']))).map toComponent := by
  rfl

/-- Joining a non-absolute relative path onto an absolute base appends the
relative path's kept components after the base's components. -/
theorem pathComponents_join (root rel : List Char)
    (habs : root.head? = some '/') (hrel : rel.head? ≠ some '/') :
    pathComponents (pathJoin root rel) =
      pathComponents root ++
        ((splitOnSlash rel).filter (fun p => ¬(p = [] ∨ p = ['.']))).map toComponent := by
  have hroot_ne : root ≠ [] := by
    intro h; rw [h] at habs; simp at habs
  have hhead_append : ∀ t : List Char, (root ++ t).head? = some '/' := by
    intro t
    cases root with
    | nil => exact absurd rfl hroot_ne
    | cons c cs => simpa using habs
  unfold pathJoin
  rw [if_neg hrel, if_neg hroot_ne]
  by_cases hlast : root.getLast? = some '/'
  · rw [if_pos hlast]
    obtain ⟨r', hr'⟩ : ∃ r', root = r' ++ ['/'] := by
      rcases List.eq_nil_or_concat root with h | ⟨r', a, h⟩
      · exact absurd h hroot_ne
      · refine ⟨r', ?_⟩
        rw [List.concat_eq_append] at h
        rw [h] at hlast ⊢
        rw [List.getLast?_concat] at hlast
        simp only [Option.some.injEq] at hlast
        rw [hlast]
    have hsplit_root : splitOnSlash root = splitOnSlash r' ++ [[]] := by
      rw [hr']
      have : r' ++ ['/'] = r' ++ '/' :: ([] : List Char) := by simp
      rw [this, splitOnSlash_append]
      rfl
    have hsplit_join : splitOnSlash (root ++ rel) = splitOnSlash r' ++ splitOnSlash rel := by
      rw [hr']
      have : r' ++ ['/'] ++ rel = r' ++ '/' :: rel := by simp
      rw [this, splitOnSlash_append]
    rw [pathComponents_eq, pathComponents_eq, hsplit_root, hsplit_join]
    rw [hhead_append rel, habs]
    simp [List.filter_append]
  · rw [if_neg hlast]
    rw [pathComponents_eq, pathComponents_eq, splitOnSlash_append]
    rw [hhead_append ('/' :: rel), habs]
    simp [List.filter_append]

/--
C1: for every relative path string with no `.` or `..` segment, no leading
`/`, no leading space, and no doubled separator, `RelativePath::new`
succeeds, and `PathSandbox::resolve_path` on the result succeeds with an
absolute path that is string-prefixed by the (absolute) sandbox root.
-/
theorem relative_path_resolves_inside_root (root rel : List Char)
    (habs : root.head? = some '/')
    (h1 : rel.head? ≠ some '/')
    (h2 : rel.head? ≠ some ' ')
    (h3 : containsDoubleSlash rel = false)
    (h4 : ∀ p ∈ splitOnSlash rel, p ≠ ['.', '.'] ∧ p ≠ ['.']) :
    RelativePath.new rel = .ok rel ∧
    ∃ v, PathSandbox.resolve_path root rel = .ok v ∧
      root <+: v ∧ v.head? = some '/' := by
  have hnew : RelativePath.new rel = .ok rel := by
    unfold RelativePath.new
    rw [if_neg h1, if_neg h2]
    simp only [h3, Bool.false_eq_true, if_false]
    have hdd : (splitOnSlash rel).any (fun p => p = ['.', '.']) = false := by
      simp only [List.any_eq_false, decide_eq_true_eq]
      intro p hp
      exact (h4 p hp).1
    have hd : (splitOnSlash rel).any (fun p => p = ['.']) = false := by
      simp only [List.any_eq_false, decide_eq_true_eq]
      intro p hp
      exact (h4 p hp).2
    simp [hdd, hd]
  refine ⟨hnew, pathJoin root rel, ?_, ?_, ?_⟩
  · unfold PathSandbox.resolve_path
    have hpre : (pathComponents root).isPrefixOf (pathComponents (pathJoin root rel)) = true := by
      rw [List.isPrefixOf_iff_prefix, pathComponents_join root rel habs h1]
      exact List.prefix_append _ _
    simp only [hpre, if_true]
  · have hroot_ne : root ≠ [] := by
      intro h; rw [h] at habs; simp at habs
    unfold pathJoin
    rw [if_neg h1, if_neg hroot_ne]
    by_cases hlast : root.getLast? = some '/'
    · rw [if_pos hlast]; exact List.prefix_append _ _
    · rw [if_neg hlast]; exact List.prefix_append _ _
  · have hroot_ne : root ≠ [] := by
      intro h; rw [h] at habs; simp at habs
    unfold pathJoin
    rw [if_neg h1, if_neg hroot_ne]
    by_cases hlast : root.getLast? = some '/'
    · rw [if_pos hlast]
      cases root with
      | nil => exact absurd rfl hroot_ne
      | cons c cs => simpa using habs
    · rw [if_neg hlast]
      cases root with
      | nil => exact absurd rfl hroot_ne
      | cons c cs => simpa using habs

/-- Witness for C1 at root `/srv` and relative path `a/b`. -/
theorem relative_path_resolves_inside_root_witness :
    RelativePath.new ['a', '/', 'b'] = .ok ['a', '/', 'b'] ∧
    ∃ v, PathSandbox.resolve_path ['/', 's', 'r', 'v'] ['a', '/', 'b'] = .ok v ∧
      ['/', 's', 'r', 'v'] <+: v ∧ v.head? = some '/' :=
  relative_path_resolves_inside_root ['/', 's', 'r', 'v'] ['a', '/', 'b']
    (by decide) (by decide) (by decide) (by decide) (by decide)

/--
C10: `RelativePath::new` accepts the empty string, and resolving the empty
relative path through `PathSandbox::resolve_path` succeeds, yielding a path
equal to the sandbox root itself under Rust `PathBuf` equality (which
compares component lists; the resolved string is the root plus a trailing
separator).
-/
theorem empty_relative_path_resolves_to_root (root : List Char)
    (habs : root.head? = some '/') :
    RelativePath.new [] = .ok [] ∧
    ∃ v, PathSandbox.resolve_path root [] = .ok v ∧
      pathComponents v = pathComponents root := by
  refine ⟨rfl, pathJoin root [], ?_, ?_⟩
  · unfold PathSandbox.resolve_path
    have hcomp : pathComponents (pathJoin root []) = pathComponents root := by
      rw [pathComponents_join root [] habs (by simp)]
      simp [splitOnSlash, List.filter]
    have hpre : (pathComponents root).isPrefixOf (pathComponents (pathJoin root [])) = true := by
      rw [List.isPrefixOf_iff_prefix, hcomp]
    simp only [hpre, if_true]
  · rw [pathComponents_join root [] habs (by simp)]
    simp [splitOnSlash, List.filter]

/-- Witness for C10 at root `/srv`. -/
theorem empty_relative_path_resolves_to_root_witness :
    RelativePath.new [] = .ok [] ∧
    ∃ v, PathSandbox.resolve_path ['/', 's', 'r', 'v'] [] = .ok v ∧
      pathComponents v = pathComponents ['/', 's', 'r', 'v'] :=
  empty_relative_path_resolves_to_root ['/', 's', 'r', 'v'] (by decide)

/-! ## Memory-mapped reader (`src/infrastructure/filesystem/mmap.rs`) -/

/-- An I/O error, standing for `std::io::Error`: a kind plus a message. -/
inductive IoErrorKind where
  | notFound
  | alreadyExists
  | other
  deriving DecidableEq, Repr

structure IoError where
  kind : IoErrorKind
  msg : List Char
  deriving DecidableEq, Repr

/-- Infrastructure errors, from `src/infrastructure/errors.rs`. -/
inductive InfrastructureError where
  | io (e : IoError)
  | maxRetriesExceeded (msg : List Char)
  deriving DecidableEq, Repr

def InfrastructureError.display : InfrastructureError → List Char
  | .io e => e.msg
  | .maxRetriesExceeded m => m

/-- `MmapHandler` state: the mapped address (null for the empty mapping)
and the mapped length. -/
structure MmapHandler where
  addr : Option Nat
  len : Nat
  deriving DecidableEq, Repr

/-- `MmapHandler::new`: for a zero-length file, returns the empty mapping
without invoking the `mmap` system call; otherwise performs the system
call (modelled by the `mmapSyscall` oracle) and fails if it fails. The
second component records whether a system-level mapping call was
performed. -/
def MmapHandler.new (fileLen : Nat) (mmapSyscall : Nat → Except IoError Nat) :
    Except InfrastructureError MmapHandler × Bool :=
  if fileLen = 0 then (.ok ⟨none, 0⟩, false)
  else
    match mmapSyscall fileLen with
    | .ok a => (.ok ⟨some a, fileLen⟩, true)
    | .error e => (.error (.io e), true)

/-- `MmapHandler::as_slice`: the empty slice for a zero-length mapping,
otherwise the `len` bytes at the mapped address (`mem` is the process
memory). -/
def MmapHandler.as_slice (m : MmapHandler) (mem : Nat → UInt8) : List UInt8 :=
  if m.len = 0 then []
  else (List.range m.len).map (fun i => mem (m.addr.getD 0 + i))

/--
C5: `MmapHandler::new` on a zero-length file always succeeds with the
empty mapping, performs no system-level mapping call, and the resulting
byte view is the empty slice.
-/
theorem mmap_zero_length_file (mmapSyscall : Nat → Except IoError Nat)
    (mem : Nat → UInt8) :
    MmapHandler.new 0 mmapSyscall = (.ok ⟨none, 0⟩, false) ∧
    ∀ m, (MmapHandler.new 0 mmapSyscall).1 = .ok m → m.as_slice mem = [] := by
  refine ⟨rfl, fun m hm => ?_⟩
  have : m = ⟨none, 0⟩ := by
    simpa [MmapHandler.new] using hm.symm
  rw [this]
  rfl

/-- Witness for C5 with a syscall oracle that always fails: mapping the
zero-length file still succeeds, with the empty view. -/
theorem mmap_zero_length_file_witness :
    MmapHandler.new 0 (fun _ => .error ⟨.other, []⟩) = (.ok ⟨none, 0⟩, false) ∧
    MmapHandler.as_slice ⟨none, 0⟩ (fun _ => 0) = [] :=
  ⟨(mmap_zero_length_file (fun _ => .error ⟨.other, []⟩) (fun _ => 0)).1,
   (mmap_zero_length_file (fun _ => .error ⟨.other, []⟩) (fun _ => 0)).2 ⟨none, 0⟩
     ((mmap_zero_length_file (fun _ => .error ⟨.other, []⟩) (fun _ => 0)).1 ▸ rfl)⟩

/-! ## Temporary file store
(`src/infrastructure/filesystem/temp_file_handler.rs`) -/

/-- Outcome of opening one candidate with `create_new(true)` (create-only
semantics: an existing file yields `AlreadyExists` instead of being
truncated). -/
inductive OpenResult where
  | success
  | alreadyExists
  | otherError
  deriving DecidableEq, Repr

structure TempFileHandler where
  path : List Char
  cleaned_up : Bool
  deriving DecidableEq, Repr

def MAX_RETRIES : Nat := 10

/-- The retry loop of `TempFileHandler::create_temp_file`. `attempts n` is
the create-only open outcome for the `n`-th generated candidate name
(`names n`); `retries` is the source's collision counter; `postOk` models
the write/sync/permission steps after a successful open. -/
def TempFileHandler.createLoop (names : Nat → List Char)
    (attempts : Nat → OpenResult) (postOk : Bool) (retries : Nat) :
    Except InfrastructureError TempFileHandler :=
  match attempts retries with
  | .success =>
    if postOk then .ok ⟨names retries, false⟩
    else .error (.io ⟨.other, []⟩)
  | .alreadyExists =>
    if h : retries + 1 ≥ MAX_RETRIES then
      .error (.maxRetriesExceeded
        ("Failed to generate unique temp filename".toList))
    else TempFileHandler.createLoop names attempts postOk (retries + 1)
  | .otherError => .error (.io ⟨.other, []⟩)
termination_by MAX_RETRIES - retries
decreasing_by simp only [MAX_RETRIES] at *; omega

/-- `TempFileHandler::create_temp_file`: first ensures the base directory
exists (`dirOk` is the outcome of that `create_dir_all` pre-step), then
starts the retry loop with a zero collision counter. -/
def TempFileHandler.create_temp_file (dirOk : Bool) (names : Nat → List Char)
    (attempts : Nat → OpenResult) (postOk : Bool) :
    Except InfrastructureError TempFileHandler :=
  if dirOk = false then .error (.io ⟨.other, []⟩)
  else TempFileHandler.createLoop names attempts postOk 0

theorem createLoop_walk (names : Nat → List Char) (attempts : Nat → OpenResult)
    (postOk : Bool) (d : Nat) :
    ∀ r, r + d ≤ 9 → (∀ i, r ≤ i → i < r + d → attempts i = .alreadyExists) →
      TempFileHandler.createLoop names attempts postOk r =
        TempFileHandler.createLoop names attempts postOk (r + d) := by
  induction d with
  | zero => intro r _ _; rfl
  | succ d ih =>
    intro r hle hcol
    have hr : attempts r = .alreadyExists := hcol r (le_refl r) (by omega)
    rw [TempFileHandler.createLoop, hr]
    have hnot : ¬(r + 1 ≥ MAX_RETRIES) := by simp only [MAX_RETRIES]; omega
    rw [dif_neg hnot]
    have harg : r + 1 + d = r + (d + 1) := by omega
    have := ih (r + 1) (by omega) (fun i h1 h2 => hcol i (by omega) (by omega))
    rw [harg] at this
    exact this

/--
C6: `TempFileHandler::create_temp_file` opens each candidate with
create-only semantics and, on a name collision, retries with a fresh
candidate; after 10 colliding attempts it fails with the distinct
retries-exceeded error, while any other I/O error during opening fails
immediately without retry. If the `n`-th candidate (n < 10, all earlier
ones colliding) opens successfully, creation succeeds with that candidate.
-/
theorem create_temp_file_retry_spec (names : Nat → List Char)
    (attempts : Nat → OpenResult) (postOk : Bool) :
    ((∀ i, i < 10 → attempts i = .alreadyExists) →
      TempFileHandler.create_temp_file true names attempts postOk =
        .error (.maxRetriesExceeded
          ("Failed to generate unique temp filename".toList))) ∧
    (∀ n, n < 10 → (∀ i, i < n → attempts i = .alreadyExists) →
      attempts n = .success → postOk = true →
      TempFileHandler.create_temp_file true names attempts postOk =
        .ok ⟨names n, false⟩) ∧
    (∀ n, n < 10 → (∀ i, i < n → attempts i = .alreadyExists) →
      attempts n = .otherError →
      TempFileHandler.create_temp_file true names attempts postOk =
        .error (.io ⟨.other, []⟩)) := by
  refine ⟨fun hall => ?_, fun n hn hcol hsucc hpost => ?_, fun n hn hcol herr => ?_⟩
  · have hwalk := createLoop_walk names attempts postOk 9 0 (by omega)
      (fun i _ h2 => hall i (by omega))
    unfold TempFileHandler.create_temp_file
    rw [if_neg (by decide), hwalk]
    rw [TempFileHandler.createLoop, hall 9 (by omega)]
    rw [dif_pos (by simp only [MAX_RETRIES]; omega)]
  · have hwalk := createLoop_walk names attempts postOk n 0 (by omega)
      (fun i _ h2 => hcol i (by omega))
    unfold TempFileHandler.create_temp_file
    rw [if_neg (by decide), hwalk]
    rw [TempFileHandler.createLoop]
    simp only [Nat.zero_add] at *
    rw [hsucc, if_pos hpost]
  · have hwalk := createLoop_walk names attempts postOk n 0 (by omega)
      (fun i _ h2 => hcol i (by omega))
    unfold TempFileHandler.create_temp_file
    rw [if_neg (by decide), hwalk]
    rw [TempFileHandler.createLoop]
    simp only [Nat.zero_add] at *
    rw [herr]

/-- Witness for C6: when every candidate collides, creation fails with the
retries-exceeded error; when the first candidate opens, creation succeeds
with it. -/
theorem create_temp_file_retry_spec_witness :
    TempFileHandler.create_temp_file true (fun _ => ['t']) (fun _ => .alreadyExists) true =
      .error (.maxRetriesExceeded
        ("Failed to generate unique temp filename".toList)) ∧
    TempFileHandler.create_temp_file true (fun _ => ['t']) (fun _ => .success) true =
      .ok ⟨['t'], false⟩ :=
  ⟨(create_temp_file_retry_spec (fun _ => ['t']) (fun _ => .alreadyExists) true).1
      (fun i _ => rfl),
   (create_temp_file_retry_spec (fun _ => ['t']) (fun _ => .success) true).2.1
      0 (by omega) (fun i h => absurd h (by omega)) rfl rfl⟩

/-- `TempFileHandler::cleanup`: if not already cleaned up, remove the file
when it still exists (`fs` is the set of existing paths, `removeOk` the
outcome of `fs::remove_file`; a failed removal propagates its error before
the flag is set), then mark the handler cleaned. Returns the result, the
updated handler and the updated filesystem. -/
def TempFileHandler.cleanup (h : TempFileHandler) (fs : List (List Char))
    (removeOk : Bool) :
    Except InfrastructureError Unit × (TempFileHandler × List (List Char)) :=
  if h.cleaned_up then (.ok (), (h, fs))
  else if h.path ∈ fs then
    if removeOk then (.ok (), ({ h with cleaned_up := true }, fs.erase h.path))
    else (.error (.io ⟨.other, []⟩), (h, fs))
  else (.ok (), ({ h with cleaned_up := true }, fs))

/-- Repeated disposal: `n` further cleanup calls starting from a handler
and filesystem state (as `Drop` and explicit calls may both run). -/
def iterateCleanup (removeOk : Bool) :
    Nat → TempFileHandler × List (List Char) → TempFileHandler × List (List Char)
  | 0, st => st
  | n + 1, st => iterateCleanup removeOk n (TempFileHandler.cleanup st.1 st.2 removeOk).2

/--
C7: disposal is idempotent. Cleanup deletes the file only if it still
exists and the handler has not already been cleaned; when the file is
already gone it succeeds without error; and after any successful call the
handler is marked cleaned, every further call (any number of them)
succeeds and leaves both handler and filesystem unchanged.
-/
theorem cleanup_idempotent (h : TempFileHandler) (fs : List (List Char))
    (removeOk : Bool) :
    ((TempFileHandler.cleanup h fs removeOk).2.2 ≠ fs →
      h.cleaned_up = false ∧ h.path ∈ fs) ∧
    (h.path ∉ fs → (TempFileHandler.cleanup h fs removeOk).1 = .ok ()) ∧
    ((TempFileHandler.cleanup h fs removeOk).1 = .ok () →
      (TempFileHandler.cleanup h fs removeOk).2.1.cleaned_up = true ∧
      (∀ removeOk₂,
        (TempFileHandler.cleanup (TempFileHandler.cleanup h fs removeOk).2.1
          (TempFileHandler.cleanup h fs removeOk).2.2 removeOk₂).1 = .ok ()) ∧
      ∀ k removeOk₂,
        iterateCleanup removeOk₂ k (TempFileHandler.cleanup h fs removeOk).2 =
          (TempFileHandler.cleanup h fs removeOk).2) := by
  have hfix : ∀ (h₂ : TempFileHandler) (fs₂ : List (List Char)) (r : Bool),
      h₂.cleaned_up = true →
      TempFileHandler.cleanup h₂ fs₂ r = (.ok (), (h₂, fs₂)) := by
    intro h₂ fs₂ r hcl
    unfold TempFileHandler.cleanup
    rw [if_pos hcl]
  have hiter : ∀ (k : Nat) (h₂ : TempFileHandler) (fs₂ : List (List Char)) (r : Bool),
      h₂.cleaned_up = true → iterateCleanup r k (h₂, fs₂) = (h₂, fs₂) := by
    intro k
    induction k with
    | zero => intro h₂ fs₂ r _; rfl
    | succ k ih =>
      intro h₂ fs₂ r hcl
      unfold iterateCleanup
      rw [hfix h₂ fs₂ r hcl]
      exact ih h₂ fs₂ r hcl
  refine ⟨?_, ?_, ?_⟩
  · intro hne
    unfold TempFileHandler.cleanup at hne
    by_cases hcl : h.cleaned_up
    · rw [if_pos hcl] at hne; exact absurd rfl hne
    · rw [if_neg hcl] at hne
      by_cases hmem : h.path ∈ fs
      · exact ⟨by simpa using hcl, hmem⟩
      · rw [if_neg hmem] at hne; exact absurd rfl hne
  · intro hnm
    unfold TempFileHandler.cleanup
    by_cases hcl : h.cleaned_up
    · rw [if_pos hcl]
    · rw [if_neg hcl, if_neg hnm]
  · intro hok
    have hcl2 : (TempFileHandler.cleanup h fs removeOk).2.1.cleaned_up = true := by
      unfold TempFileHandler.cleanup at hok ⊢
      by_cases hcl : h.cleaned_up
      · rw [if_pos hcl]; exact hcl
      · rw [if_neg hcl] at hok ⊢
        by_cases hmem : h.path ∈ fs
        · rw [if_pos hmem] at hok ⊢
          cases hr : removeOk with
          | true => rw [if_pos rfl]
          | false => rw [hr] at hok; simp at hok
        · rw [if_neg hmem]
    exact ⟨hcl2, fun r₂ => by rw [hfix _ _ r₂ hcl2], fun k r₂ => hiter k _ _ r₂ hcl2⟩

/-- Witness for C7: a fresh handler whose file is gone; cleanup succeeds
and a second and third call change nothing. -/
theorem cleanup_idempotent_witness :
    (TempFileHandler.cleanup ⟨['t'], false⟩ [] true).1 = .ok () ∧
    (TempFileHandler.cleanup ⟨['t'], false⟩ [] true).2.1.cleaned_up = true ∧
    iterateCleanup false 2 (TempFileHandler.cleanup ⟨['t'], false⟩ [] true).2 =
      (TempFileHandler.cleanup ⟨['t'], false⟩ [] true).2 := by
  have h1 := (cleanup_idempotent ⟨['t'], false⟩ [] true).2.1 (by simp)
  have h2 := (cleanup_idempotent ⟨['t'], false⟩ [] true).2.2 h1
  exact ⟨h1, h2.1, h2.2.2 2 false⟩

/-! ## Validated filename (`src/domain/value_objects/filename.rs`) -/

/-- Rust `str::len()`: the length of the UTF-8 encoding in bytes. -/
def utf8Length (s : List Char) : Nat := (s.map Char.utf8Size).sum

def MAX_LENGTH : Nat := 310

/-- The reserved characters of `WindowsCompatibleFilename::new`. -/
def reservedFilenameChars : List Char :=
  ['/', '\\', ':', '*', '?', '\"', '<', '>', '|', Char.ofNat 0]

/-- `WindowsCompatibleFilename::new`: rejects the empty string, a string
longer than 310 bytes (Rust `len()` counts UTF-8 bytes), and any reserved
character, in that order. -/
def WindowsCompatibleFilename.new (filename : List Char) :
    Except ValidationError (List Char) :=
  if filename = [] then .error .emptyValue
  else if utf8Length filename > MAX_LENGTH then .error .exceedsMaxLength
  else if filename.any (fun c => reservedFilenameChars.contains c) then
    .error .invalidCharacter
  else .ok filename

theorem new_error_of_overlong (s : List Char) (h1 : s ≠ [])
    (h2 : utf8Length s > 310) :
    WindowsCompatibleFilename.new s = .error .exceedsMaxLength := by
  unfold WindowsCompatibleFilename.new MAX_LENGTH
  rw [if_neg h1, if_pos h2]

set_option maxRecDepth 4000 in
/--
C8 counterexample: the claim measures the 310-length bound in characters,
but the code measures UTF-8 bytes. 156 copies of the two-byte character é
form a non-empty string of 156 ≤ 310 characters containing no reserved
character, for which the claim predicts success, yet construction fails
with the length error (312 bytes > 310).
-/
theorem filename_char_length_counterexample :
    (List.replicate 156 'é') ≠ [] ∧
    (List.replicate 156 'é').length ≤ 310 ∧
    (∀ c ∈ List.replicate 156 'é', c ∉ reservedFilenameChars) ∧
    WindowsCompatibleFilename.new (List.replicate 156 'é') =
      .error .exceedsMaxLength := by
  refine ⟨by simp, by simp, ?_, ?_⟩
  · intro c hc
    rw [List.eq_of_mem_replicate hc]
    decide
  · exact new_error_of_overlong _ (by simp) (by decide)

/--
C8 (amended): construction succeeds iff the string is non-empty, at most
310 bytes long in its UTF-8 encoding, and contains no reserved character
(`/ \ : * ? " < > |` or NUL); otherwise it fails with the corresponding
error: empty-value for the empty string, exceeds-max-length for an
overlong string, invalid-character for a reserved character.
-/
theorem filename_validation_spec (s : List Char) :
    (WindowsCompatibleFilename.new s = .ok s ↔
      s ≠ [] ∧ utf8Length s ≤ 310 ∧ ∀ c ∈ s, c ∉ reservedFilenameChars) ∧
    (s = [] → WindowsCompatibleFilename.new s = .error .emptyValue) ∧
    (s ≠ [] → utf8Length s > 310 →
      WindowsCompatibleFilename.new s = .error .exceedsMaxLength) ∧
    (s ≠ [] → utf8Length s ≤ 310 → (∃ c ∈ s, c ∈ reservedFilenameChars) →
      WindowsCompatibleFilename.new s = .error .invalidCharacter) := by
  have hany : s.any (fun c => reservedFilenameChars.contains c) = true ↔
      ∃ c ∈ s, c ∈ reservedFilenameChars := by
    simp [List.any_eq_true]
  unfold WindowsCompatibleFilename.new MAX_LENGTH
  refine ⟨?_, ?_, ?_, ?_⟩
  · constructor
    · intro h
      split_ifs at h with h1 h2 h3
      · exact ⟨h1, by omega, fun c hc hres => h3 (hany.mpr ⟨c, hc, hres⟩)⟩
    · rintro ⟨h1, h2, h3⟩
      rw [if_neg h1, if_neg (by omega)]
      have hfalse : s.any (fun c => reservedFilenameChars.contains c) = false := by
        cases hb : s.any (fun c => reservedFilenameChars.contains c) with
        | false => rfl
        | true =>
          obtain ⟨c, hmem, hres⟩ := hany.mp hb
          exact absurd hres (h3 c hmem)
      simp only [hfalse, Bool.false_eq_true, if_false]
  · intro h1; rw [if_pos h1]
  · intro h1 h2; rw [if_neg h1, if_pos h2]
  · intro h1 h2 h3
    rw [if_neg h1, if_neg (by omega), if_pos (hany.mpr h3)]

/-- Witness for the amended C8: a single-character name is accepted; a
name containing a colon is rejected with the invalid-character error. -/
theorem filename_validation_spec_witness :
    WindowsCompatibleFilename.new ['a'] = .ok ['a'] ∧
    WindowsCompatibleFilename.new ['a', ':'] = .error .invalidCharacter :=
  ⟨(filename_validation_spec ['a']).1.mpr ⟨by simp, by decide, by decide⟩,
   (filename_validation_spec ['a', ':']).2.2.2 (by simp) (by decide)
     ⟨':', by decide, by decide⟩⟩

/-! ## MIME type and classification outcome
(`src/domain/value_objects/mime_type.rs`, `src/domain/entities/magic_result.rs`) -/

structure MimeType where
  type_part : List Char
  subtype_part : List Char
  deriving DecidableEq, Repr

/-- `MimeType::new`: requires a non-empty `type/subtype` shape with both
parts non-empty. -/
def MimeType.new (s : List Char) : Except ValidationError MimeType :=
  if s = [] then .error .emptyValue
  else
    match splitOnSlash s with
    | [a, b] =>
      if a = [] ∨ b = [] then .error .invalidCharacter
      else .ok ⟨a, b⟩
    | _ => .error .invalidCharacter

/-- `MagicResult`: identity (`id`, a freshly generated UUID modelled as a
number), correlation id, filename, MIME type, description, optional
encoding and timestamp. -/
structure MagicResult where
  id : Nat
  request_id : List Char
  filename : List Char
  mime_type : MimeType
  description : List Char
  encoding : Option (List Char)
  analyzed_at : Nat
  deriving DecidableEq, Repr

/-- `MagicResult::new`: the entity id comes from `Uuid::new_v4()`
(modelled by the `freshId` argument), the encoding starts out absent. -/
def MagicResult.new (freshId now : Nat) (request_id filename : List Char)
    (mime_type : MimeType) (description : List Char) : MagicResult :=
  ⟨freshId, request_id, filename, mime_type, description, none, now⟩

/-- `impl PartialEq for MagicResult`: equality compares only the entity
id. -/
def MagicResult.beq (a b : MagicResult) : Bool := a.id == b.id

/-- The outcomes produced during one program run: `Uuid::new_v4()` is
modelled as a fresh-id allocator, so the `i`-th construction carries id
`firstId + i`, making ids of distinct constructions distinct. -/
def runResults (now : Nat) : List (List Char × List Char × MimeType × List Char) →
    Nat → List MagicResult
  | [], _ => []
  | d :: rest, i =>
    MagicResult.new i now d.1 d.2.1 d.2.2.1 d.2.2.2 :: runResults now rest (i + 1)

theorem runResults_id_ge (now : Nat)
    (run : List (List Char × List Char × MimeType × List Char)) :
    ∀ i r, r ∈ runResults now run i → i ≤ r.id := by
  induction run with
  | nil => intro i r hr; simp [runResults] at hr
  | cons d rest ih =>
    intro i r hr
    simp only [runResults, List.mem_cons] at hr
    rcases hr with h | h
    · rw [h]; rfl
    · have := ih (i + 1) r h; omega

theorem runResults_id_inj (now : Nat)
    (run : List (List Char × List Char × MimeType × List Char)) :
    ∀ i r₁ r₂, r₁ ∈ runResults now run i → r₂ ∈ runResults now run i →
      r₁.id = r₂.id → r₁ = r₂ := by
  induction run with
  | nil => intro i r₁ r₂ h; simp [runResults] at h
  | cons d rest ih =>
    intro i r₁ r₂ h₁ h₂ hid
    simp only [runResults, List.mem_cons] at h₁ h₂
    rcases h₁ with h₁ | h₁ <;> rcases h₂ with h₂ | h₂
    · rw [h₁, h₂]
    · have := runResults_id_ge now rest (i + 1) r₂ h₂
      rw [h₁] at hid
      simp [MagicResult.new] at hid
      omega
    · have := runResults_id_ge now rest (i + 1) r₁ h₁
      rw [h₂] at hid
      simp [MagicResult.new] at hid
      omega
    · exact ih (i + 1) r₁ r₂ h₁ h₂ hid

/--
C9: `MagicResult` equality is identity-based. Among the outcomes of any
run (ids allocated freshly per construction, as `Uuid::new_v4` provides),
two outcomes that compare equal are the same outcome and in particular
carry the same correlation id; equality holds exactly when the entity ids
match, so two separately constructed outcomes with identical content
(including the same correlation id) are never equal.
-/
theorem magic_result_equality_identity (now : Nat)
    (run : List (List Char × List Char × MimeType × List Char)) :
    (∀ r₁ r₂, r₁ ∈ runResults now run 0 → r₂ ∈ runResults now run 0 →
      MagicResult.beq r₁ r₂ = true → r₁.request_id = r₂.request_id) ∧
    (∀ r₁ r₂ : MagicResult, MagicResult.beq r₁ r₂ = true ↔ r₁.id = r₂.id) ∧
    (∀ rid fn mt desc i j, i ≠ j →
      MagicResult.beq (MagicResult.new i now rid fn mt desc)
        (MagicResult.new j now rid fn mt desc) = false) := by
  refine ⟨?_, ?_, ?_⟩
  · intro r₁ r₂ h₁ h₂ hbeq
    have hid : r₁.id = r₂.id := by simpa [MagicResult.beq] using hbeq
    rw [runResults_id_inj now run 0 r₁ r₂ h₁ h₂ hid]
  · intro r₁ r₂
    simp [MagicResult.beq]
  · intro rid fn mt desc i j hne
    simp [MagicResult.beq, MagicResult.new, hne]

/-- Witness for C9: in a one-outcome run the outcome equals itself and the
correlation ids trivially agree; two outcomes built from the same request
with distinct fresh ids are unequal. -/
theorem magic_result_equality_identity_witness :
    (runResults 0 [(['r'], ['f'], ⟨['a'], ['b']⟩, ['d'])] 0).head?.isSome = true ∧
    (['r'] : List Char) = ['r'] ∧
    MagicResult.beq (MagicResult.new 0 0 ['r'] ['f'] ⟨['a'], ['b']⟩ ['d'])
      (MagicResult.new 1 0 ['r'] ['f'] ⟨['a'], ['b']⟩ ['d']) = false := by
  refine ⟨by decide, ?_, ?_⟩
  · exact (magic_result_equality_identity 0 [(['r'], ['f'], ⟨['a'], ['b']⟩, ['d'])]).1
      (MagicResult.new 0 0 ['r'] ['f'] ⟨['a'], ['b']⟩ ['d'])
      (MagicResult.new 0 0 ['r'] ['f'] ⟨['a'], ['b']⟩ ['d'])
      (by simp [runResults]) (by simp [runResults]) (by decide)
  · exact (magic_result_equality_identity 0 []).2.2 ['r'] ['f'] ⟨['a'], ['b']⟩ ['d']
      0 1 (by decide)

/-! ## Errors of the application layer
(`src/domain/errors/mod.rs`, `src/application/errors/mod.rs`) -/

inductive MagicError where
  | analysisFailed (msg : List Char)
  | databaseLoadFailed (msg : List Char)
  | fileNotFound (msg : List Char)
  deriving DecidableEq, Repr

def ValidationError.display : ValidationError → List Char
  | .invalidCharacter => "Invalid character".toList
  | .exceedsMaxLength => "Exceeds maximum length".toList
  | .emptyValue => "Empty value".toList
  | .absolutePath => "Absolute path not allowed".toList
  | .pathTraversal => "Path traversal not allowed".toList
  | .invalidPath => "Invalid path".toList
  | .fileNotFound => "File or directory not found".toList

def MagicError.display : MagicError → List Char
  | .analysisFailed msg => "Analysis failed: ".toList ++ msg
  | .databaseLoadFailed msg => "Database load failed: ".toList ++ msg
  | .fileNotFound p => "File not found: ".toList ++ p

inductive ApplicationError where
  | badRequest (msg : List Char)
  | unauthorized (msg : List Char)
  | forbidden (msg : List Char)
  | notFound (msg : List Char)
  | unprocessableEntity (msg : List Char)
  | internalError (msg : List Char)
  | timeout
  deriving DecidableEq, Repr

/-- `impl From<MagicError> for ApplicationError`. -/
def MagicError.toApplicationError : MagicError → ApplicationError
  | .fileNotFound p => .notFound ("File not found: ".toList ++ p)
  | e => .unprocessableEntity e.display

/-! ## Classification engine adapter
(`src/infrastructure/magic/libmagic_repository.rs`) -/

/-- An engine invocation recorded in the trace: a scan over in-memory
bytes (`magic_buffer`) or the engine reading the file itself
(`magic_file`, the plain whole-file read used as mmap fallback). -/
inductive EngineEvent where
  | bufferScan (data : List UInt8)
  | fileScan
  deriving DecidableEq, Repr

/-- The MIME post-processing both repository methods perform on the raw
engine string (`MimeType::try_from`, invalid results becoming an
analysis failure). -/
def processEngineMime (r : Except MagicError (List Char)) :
    Except MagicError (MimeType × List Char) :=
  match r with
  | .error e => .error e
  | .ok mime =>
    match MimeType.new mime with
    | .error _ => .error (.analysisFailed ("Invalid MIME returned".toList))
    | .ok m => .ok (m, mime)

/-- `LibmagicRepository::analyze_buffer`: one engine scan over the given
bytes (`cookieBuffer` is the serialized `magic_buffer` call), then the
MIME post-processing. -/
def LibmagicRepository.analyze_buffer
    (cookieBuffer : List UInt8 → Except MagicError (List Char))
    (data : List UInt8) :
    Except MagicError (MimeType × List Char) × List EngineEvent :=
  (processEngineMime (cookieBuffer data), [.bufferScan data])

/-- Environment for `LibmagicRepository::analyze_file`: outcome of
`File::open` (the length on success), the `mmap` system call, the mapped
memory, and the two libmagic entry points. -/
structure FileAnalysisEnv where
  openResult : Except IoError Nat
  mmapSyscall : Nat → Except IoError Nat
  mem : Nat → UInt8
  cookieBuffer : List UInt8 → Except MagicError (List Char)
  cookieFile : Except MagicError (List Char)

/-- `LibmagicRepository::analyze_file`: open the file (any open error
becomes `FileNotFound`), map it; a successful mapping is scanned with
`magic_buffer`, a failed mapping falls back to `magic_file` only when the
fallback flag is enabled and otherwise fails. -/
def LibmagicRepository.analyze_file (mmap_fallback_enabled : Bool)
    (env : FileAnalysisEnv) :
    Except MagicError (MimeType × List Char) × List EngineEvent :=
  match env.openResult with
  | .error e => (.error (.fileNotFound e.msg), [])
  | .ok len =>
    match (MmapHandler.new len env.mmapSyscall).1 with
    | .ok mmap =>
      (processEngineMime (env.cookieBuffer (mmap.as_slice env.mem)),
        [.bufferScan (mmap.as_slice env.mem)])
    | .error e =>
      if mmap_fallback_enabled then (processEngineMime env.cookieFile, [.fileScan])
      else (.error (.analysisFailed ("Failed to mmap file: ".toList ++ e.display)), [])

/-! ## Sandboxed-path use case
(`src/application/use_cases/analyze_path.rs`) -/

/-- Environment for `AnalyzePathUseCase::execute`: file-open outcome, the
`mmap` system call, mapped memory, the repository's buffer scan, the
timeout outcome and the generated entity id / timestamp. -/
structure PathAnalysisEnv where
  openResult : Except IoError Nat
  mmapSyscall : Nat → Except IoError Nat
  mem : Nat → UInt8
  cookieBuffer : List UInt8 → Except MagicError (List Char)
  timedOut : Bool
  freshId : Nat
  now : Nat

/-- `AnalyzePathUseCase::execute`: resolves the relative path through the
sandbox, opens the file (distinguishing not-found), maps it itself — a
mapping failure is an internal error, unconditionally — and otherwise
scans the mapped bytes via `analyze_buffer` under a deadline. -/
def AnalyzePathUseCase.execute (base_dir rel request_id filename : List Char)
    (env : PathAnalysisEnv) :
    Except ApplicationError MagicResult × List EngineEvent :=
  match PathSandbox.resolve_path base_dir rel with
  | .error e => (.error (.badRequest e.display), [])
  | .ok resolved =>
    match env.openResult with
    | .error e =>
      if e.kind = .notFound then (.error (.notFound resolved), [])
      else
        (.error (.internalError
          ("Failed to open file for analysis: ".toList ++ e.msg)), [])
    | .ok len =>
      match (MmapHandler.new len env.mmapSyscall).1 with
      | .error e =>
        (.error (.internalError
          ("Failed to mmap file for analysis: ".toList ++ e.display)), [])
      | .ok mmap =>
        match LibmagicRepository.analyze_buffer env.cookieBuffer
            (mmap.as_slice env.mem) with
        | (res, evs) =>
          if env.timedOut then (.error .timeout, evs)
          else
            match res with
            | .error e => (.error e.toApplicationError, evs)
            | .ok (m, desc) =>
              (.ok (MagicResult.new env.freshId env.now request_id filename m desc),
                evs)

/-- A concrete environment in which the file opens (3 bytes) but the
memory-mapping system call fails, while both engine entry points would
classify successfully as `a/b`. -/
def mmapFailPathEnv : PathAnalysisEnv where
  openResult := .ok 3
  mmapSyscall := fun _ => .error ⟨.other, ['m']⟩
  mem := fun _ => 0
  cookieBuffer := fun _ => .ok ['a', '/', 'b']
  timedOut := false
  freshId := 0
  now := 0

/-- The same situation seen by the repository adapter. -/
def mmapFailFileEnv : FileAnalysisEnv where
  openResult := .ok 3
  mmapSyscall := fun _ => .error ⟨.other, ['m']⟩
  mem := fun _ => 0
  cookieBuffer := fun _ => .ok ['a', '/', 'b']
  cookieFile := .ok ['a', '/', 'b']

/--
C2 counterexample: in `AnalyzePathUseCase::execute`, a failed mapping is
never retried. At a concrete input whose mapping attempt fails while the
fallback flag is enabled (the flag lives on `LibmagicRepository`, which
this entry point's mapping does not consult) and a buffered read would
succeed, the entry point returns an internal error and performs no engine
call at all — the same conditions under which
`LibmagicRepository::analyze_file` (used for spilled uploads, with the
flag enabled) does fall back and classify successfully.
-/
theorem analyze_path_no_mmap_fallback_counterexample :
    AnalyzePathUseCase.execute ['/', 's'] ['a'] ['r'] ['f'] mmapFailPathEnv =
      (.error (.internalError
        ("Failed to mmap file for analysis: ".toList ++ ['m'])), []) ∧
    LibmagicRepository.analyze_file true mmapFailFileEnv =
      (.ok (⟨['a'], ['b']⟩, ['a', '/', 'b']), [.fileScan]) := by
  exact ⟨rfl, rfl⟩

/--
C2 (amended): the flag-guarded mmap-failure fallback lives in
`LibmagicRepository::analyze_file` (the method classifying spilled
uploads): only a failed mapping with the fallback flag enabled triggers
the retry via the engine's own whole-file read, a failed mapping with the
flag disabled is an error with no engine call, and a successful mapping is
scanned in memory. The sandboxed-path entry point
(`AnalyzePathUseCase::execute`) performs its own mapping and fails with an
internal error on any mapping failure, without retrying, regardless of the
flag.
-/
theorem mmap_fallback_is_in_analyze_file (flag : Bool) (env : FileAnalysisEnv)
    (penv : PathAnalysisEnv) (base rel rid fn resolved : List Char)
    (len : Nat) (e : InfrastructureError) :
    (env.openResult = .ok len →
      (MmapHandler.new len env.mmapSyscall).1 = .error e →
      LibmagicRepository.analyze_file true env =
        (processEngineMime env.cookieFile, [.fileScan])) ∧
    (env.openResult = .ok len →
      (MmapHandler.new len env.mmapSyscall).1 = .error e →
      LibmagicRepository.analyze_file false env =
        (.error (.analysisFailed ("Failed to mmap file: ".toList ++ e.display)),
          [])) ∧
    (∀ m, env.openResult = .ok len →
      (MmapHandler.new len env.mmapSyscall).1 = .ok m →
      LibmagicRepository.analyze_file flag env =
        (processEngineMime (env.cookieBuffer (m.as_slice env.mem)),
          [.bufferScan (m.as_slice env.mem)])) ∧
    (PathSandbox.resolve_path base rel = .ok resolved →
      penv.openResult = .ok len →
      (MmapHandler.new len penv.mmapSyscall).1 = .error e →
      AnalyzePathUseCase.execute base rel rid fn penv =
        (.error (.internalError
          ("Failed to mmap file for analysis: ".toList ++ e.display)), [])) := by
  refine ⟨fun hopen hmmap => ?_, fun hopen hmmap => ?_,
    fun m hopen hmmap => ?_, fun hres hopen hmmap => ?_⟩
  · simp only [LibmagicRepository.analyze_file, hopen, hmmap, if_true]
  · simp only [LibmagicRepository.analyze_file, hopen, hmmap, Bool.false_eq_true,
      if_false]
  · simp only [LibmagicRepository.analyze_file, hopen, hmmap]
  · simp only [AnalyzePathUseCase.execute, hres, hopen, hmmap]

/-- Witness for the amended C2 in the concrete failing-mmap environment. -/
theorem mmap_fallback_is_in_analyze_file_witness :
    LibmagicRepository.analyze_file true mmapFailFileEnv =
      (processEngineMime (.ok ['a', '/', 'b']), [.fileScan]) ∧
    LibmagicRepository.analyze_file false mmapFailFileEnv =
      (.error (.analysisFailed ("Failed to mmap file: ".toList ++ ['m'])), []) ∧
    AnalyzePathUseCase.execute ['/', 's'] ['a'] ['r'] ['f'] mmapFailPathEnv =
      (.error (.internalError
        ("Failed to mmap file for analysis: ".toList ++ ['m'])), []) := by
  have h := mmap_fallback_is_in_analyze_file true mmapFailFileEnv mmapFailPathEnv
    ['/', 's'] ['a'] ['r'] ['f'] ['/', 's', '/', 'a'] 3 (.io ⟨.other, ['m']⟩)
  exact ⟨h.1 rfl rfl, (mmap_fallback_is_in_analyze_file false mmapFailFileEnv
      mmapFailPathEnv ['/', 's'] ['a'] ['r'] ['f'] ['/', 's', '/', 'a'] 3
      (.io ⟨.other, ['m']⟩)).2.1 rfl rfl,
    h.2.2.2 rfl rfl rfl⟩

/-! ## Content classification orchestrator
(`src/application/use_cases/analyze_content.rs`) -/

/-- A spill file on disk: its contents, its permission bits, and whether
it has been removed. -/
structure SpillFile where
  contents : List UInt8
  perms : Nat
  removed : Bool
  deriving DecidableEq, Repr

/-- Modelled from the spec: `TempFileHandler::new_empty` (referenced by
`FsTempFile::new` in `src/infrastructure/filesystem/temp_storage_service.rs`
but absent from the sources) creates an empty uniquely-named spill file
and, per §4.2, restricts its permissions to owner read/write (0600). -/
def newEmptySpillFile : SpillFile := ⟨[], 0o600, false⟩

/-- Configuration consumed by `execute_stream`
(`src/infrastructure/config/server_config.rs`, `AnalysisConfig`). -/
structure AnalysisConfig where
  large_file_threshold_mb : Nat
  min_free_space_mb : Nat
  deriving Repr

/-- Environment for `execute_stream`: free space reported for the temp
directory, outcomes of temp-file creation / writes / sync, the repository
results with their deadline outcomes, and the generated id / timestamp. -/
structure StreamEnv where
  free_space_mb : Nat
  createOk : Bool
  writeOk : Bool
  syncOk : Bool
  bufferTimedOut : Bool
  fileTimedOut : Bool
  analyzeBufferResult : List UInt8 → Except MagicError (MimeType × List Char)
  analyzeFileResult : Except MagicError (MimeType × List Char)
  freshId : Nat
  now : Nat

/-- The loop state of `execute_stream`: the in-memory buffer, the
large-mode flag, the owned spill file (if one was created) and how many
temp-file creations have been performed. -/
structure StreamState where
  buffer : List UInt8
  is_large : Bool
  temp_file : Option SpillFile
  created : Nat
  deriving Repr

/-- The chunk loop of `execute_stream`. Each chunk either grows the
buffer, or — on first crossing the threshold — checks free space, creates
the spill file (owner-only permissions) and writes the buffered prefix
plus the chunk to it, or — once in large mode — appends to the spill
file. An error chunk or a failed step ends the loop with an error. -/
def processChunks (threshold : Nat) (cfg : AnalysisConfig) (env : StreamEnv) :
    List (Except (List Char) (List UInt8)) → StreamState →
      Option ApplicationError × StreamState
  | [], st => (none, st)
  | item :: rest, st =>
    match item with
    | .error e => (some (.badRequest e), st)
    | .ok chunk =>
      if st.is_large = false then
        if st.buffer.length + chunk.length > threshold then
          if env.free_space_mb < cfg.min_free_space_mb then
            (some (.internalError
              ("Insufficient storage space for analysis".toList)), st)
          else if env.createOk = false then
            (some (.internalError ("Failed to create temp file: ".toList)), st)
          else if env.writeOk = false then
            (some (.internalError
              ("Failed to write buffer to temp file: ".toList)),
              { st with is_large := true, buffer := [],
                        temp_file := some newEmptySpillFile,
                        created := st.created + 1 })
          else
            processChunks threshold cfg env rest
              { buffer := [], is_large := true,
                temp_file := some
                  { newEmptySpillFile with contents := st.buffer ++ chunk },
                created := st.created + 1 }
        else
          processChunks threshold cfg env rest
            { st with buffer := st.buffer ++ chunk }
      else
        match st.temp_file with
        | some tf =>
          if env.writeOk = false then
            (some (.internalError
              ("Failed to write chunk to temp file: ".toList)), st)
          else
            let tf₂ : SpillFile := { tf with contents := tf.contents ++ chunk }
            processChunks threshold cfg env rest { st with temp_file := some tf₂ }
        | none => processChunks threshold cfg env rest st

/-- `AnalyzeContentUseCase::execute` (the in-memory entry point): empty
content is a validation failure; otherwise the buffer scan runs under a
deadline. -/
def AnalyzeContentUseCase.execute (env : StreamEnv)
    (request_id filename : List Char) (data : List UInt8) :
    Except ApplicationError MagicResult :=
  if data = [] then .error (.badRequest ("Content cannot be empty".toList))
  else if env.bufferTimedOut then .error .timeout
  else
    match env.analyzeBufferResult data with
    | .error e => .error e.toApplicationError
    | .ok (m, desc) =>
      .ok (MagicResult.new env.freshId env.now request_id filename m desc)

/-- `AnalyzeContentUseCase::execute_from_file`: the repository's file
analysis under a deadline. -/
def AnalyzeContentUseCase.execute_from_file (env : StreamEnv)
    (request_id filename : List Char) :
    Except ApplicationError MagicResult :=
  if env.fileTimedOut then .error .timeout
  else
    match env.analyzeFileResult with
    | .error e => .error e.toApplicationError
    | .ok (m, desc) =>
      .ok (MagicResult.new env.freshId env.now request_id filename m desc)

/-- `AnalyzeContentUseCase::execute_stream`: runs the chunk loop, then —
in large mode — syncs the spill file and classifies it via the file path,
otherwise classifies the in-memory buffer. The owned spill file is dropped
when the function returns on every path, which removes it
(`TempFileHandler::cleanup` via `Drop`); the returned state records the
file with its `removed` flag set accordingly. -/
def AnalyzeContentUseCase.execute_stream (cfg : AnalysisConfig)
    (env : StreamEnv) (request_id filename : List Char)
    (chunks : List (Except (List Char) (List UInt8))) :
    Except ApplicationError MagicResult × StreamState :=
  let threshold := cfg.large_file_threshold_mb * 1024 * 1024
  match processChunks threshold cfg env chunks ⟨[], false, none, 0⟩ with
  | (errOpt, st) =>
    let result : Except ApplicationError MagicResult :=
      match errOpt with
      | some e => .error e
      | none =>
        if st.is_large then
          match st.temp_file with
          | some _ =>
            if env.syncOk = false then
              .error (.internalError ("Failed to sync temp file: ".toList))
            else AnalyzeContentUseCase.execute_from_file env request_id filename
          | none => .error (.internalError ("unreachable".toList))
        else AnalyzeContentUseCase.execute env request_id filename st.buffer
    let dropped := st.temp_file.map (fun tf => { tf with removed := true })
    (result, { st with temp_file := dropped })

theorem processChunks_below_threshold (threshold : Nat) (cfg : AnalysisConfig)
    (env : StreamEnv) :
    ∀ (data : List (List UInt8)) (buf : List UInt8) (cr : Nat),
      buf.length + (data.map List.length).sum ≤ threshold →
      processChunks threshold cfg env (data.map .ok) ⟨buf, false, none, cr⟩ =
        (none, ⟨buf ++ data.flatten, false, none, cr⟩) := by
  intro data
  induction data with
  | nil => intro buf cr hle; simp [processChunks]
  | cons d rest ih =>
    intro buf cr hle
    simp only [List.map_cons, List.map, List.sum_cons] at hle ⊢
    rw [processChunks]
    have hnc : ¬(buf.length + d.length > threshold) := by omega
    simp only [if_neg hnc, if_pos rfl, reduceCtorEq]
    have := ih (buf ++ d) cr (by simp; omega)
    simp only [List.length_append] at this
    rw [this]
    simp [List.append_assoc]

theorem processChunks_large_stable (threshold : Nat) (cfg : AnalysisConfig)
    (env : StreamEnv) (hw : env.writeOk = true) :
    ∀ (data : List (List UInt8)) (buf : List UInt8) (cr : Nat) (tf : SpillFile),
      ∃ tf₂, processChunks threshold cfg env (data.map .ok)
          ⟨buf, true, some tf, cr⟩ = (none, ⟨buf, true, some tf₂, cr⟩) ∧
        tf₂.perms = tf.perms ∧ tf₂.removed = tf.removed := by
  intro data
  induction data with
  | nil =>
    intro buf cr tf
    exact ⟨tf, by simp [processChunks], rfl, rfl⟩
  | cons d rest ih =>
    intro buf cr tf
    obtain ⟨tf₂, hrun, hperms, hrem⟩ := ih buf cr { tf with contents := tf.contents ++ d }
    refine ⟨tf₂, ?_, by rw [hperms], by rw [hrem]⟩
    rw [List.map_cons, processChunks]
    simp only [hw, Bool.true_eq_false, if_neg, reduceCtorEq]
    simpa using hrun

theorem processChunks_crossing (threshold : Nat) (cfg : AnalysisConfig)
    (env : StreamEnv) (hfree : ¬(env.free_space_mb < cfg.min_free_space_mb))
    (hc : env.createOk = true) (hw : env.writeOk = true) :
    ∀ (data : List (List UInt8)) (buf : List UInt8),
      buf.length ≤ threshold →
      buf.length + (data.map List.length).sum > threshold →
      ∃ tf, processChunks threshold cfg env (data.map .ok) ⟨buf, false, none, 0⟩ =
          (none, ⟨[], true, some tf, 1⟩) ∧
        tf.perms = 0o600 ∧ tf.removed = false := by
  intro data
  induction data with
  | nil => intro buf h₁ h₂; simp at h₂; omega
  | cons d rest ih =>
    intro buf h₁ h₂
    simp only [List.map_cons, List.sum_cons] at h₂
    by_cases hcross : buf.length + d.length > threshold
    · obtain ⟨tf₂, hrun, hperms, hrem⟩ :=
        processChunks_large_stable threshold cfg env hw rest []
          1 { newEmptySpillFile with contents := buf ++ d }
      refine ⟨tf₂, ?_, by rw [hperms]; rfl, by rw [hrem]; rfl⟩
      rw [List.map_cons, processChunks]
      simp only [if_pos hcross, if_neg hfree, hc, hw, Bool.true_eq_false,
        if_neg, if_pos rfl, reduceCtorEq]
      simpa using hrun
    · have := ih (buf ++ d) (by simp; omega) (by simp; omega)
      obtain ⟨tf, hrun, hperms, hrem⟩ := this
      refine ⟨tf, ?_, hperms, hrem⟩
      rw [List.map_cons, processChunks]
      simp only [if_neg hcross, if_pos rfl, reduceCtorEq]
      exact hrun

theorem processChunks_crossing_nospace (threshold : Nat) (cfg : AnalysisConfig)
    (env : StreamEnv) (hfree : env.free_space_mb < cfg.min_free_space_mb) :
    ∀ (data : List (List UInt8)) (buf : List UInt8) (cr : Nat),
      buf.length ≤ threshold →
      buf.length + (data.map List.length).sum > threshold →
      ∃ buf₂, processChunks threshold cfg env (data.map .ok) ⟨buf, false, none, cr⟩ =
          (some (.internalError ("Insufficient storage space for analysis".toList)),
            ⟨buf₂, false, none, cr⟩) := by
  intro data
  induction data with
  | nil => intro buf cr h₁ h₂; simp at h₂; omega
  | cons d rest ih =>
    intro buf cr h₁ h₂
    simp only [List.map_cons, List.sum_cons] at h₂
    by_cases hcross : buf.length + d.length > threshold
    · refine ⟨buf, ?_⟩
      rw [List.map_cons, processChunks]
      simp only [if_pos hcross, if_pos hfree, if_pos rfl, reduceCtorEq]
      simp
    · obtain ⟨buf₂, hrun⟩ := ih (buf ++ d) cr (by simp; omega) (by simp; omega)
      refine ⟨buf₂, ?_⟩
      rw [List.map_cons, processChunks]
      simp only [if_neg hcross, if_pos rfl, reduceCtorEq]
      exact hrun

/--
C3: for a streamed payload whose total size stays under the configured
threshold, `execute_stream` never creates a spill file; for a payload that
crosses the threshold mid-stream (with sufficient free space and working
storage), exactly one spill file is created, its permissions are
owner-read/write only (0600, per the spec-modelled `new_empty`), and it is
removed when the request completes — the engine outcome, deadline and sync
outcome are arbitrary, so this holds whether classification succeeds or
fails.
-/
theorem stream_spill_lifecycle (cfg : AnalysisConfig) (env : StreamEnv)
    (rid fn : List Char) (data : List (List UInt8)) :
    ((data.map List.length).sum < cfg.large_file_threshold_mb * 1024 * 1024 →
      (AnalyzeContentUseCase.execute_stream cfg env rid fn (data.map .ok)).2.created = 0 ∧
      (AnalyzeContentUseCase.execute_stream cfg env rid fn (data.map .ok)).2.temp_file = none) ∧
    ((data.map List.length).sum > cfg.large_file_threshold_mb * 1024 * 1024 →
      ¬(env.free_space_mb < cfg.min_free_space_mb) →
      env.createOk = true → env.writeOk = true →
      (AnalyzeContentUseCase.execute_stream cfg env rid fn (data.map .ok)).2.created = 1 ∧
      ∃ tf, (AnalyzeContentUseCase.execute_stream cfg env rid fn (data.map .ok)).2.temp_file
          = some tf ∧ tf.perms = 0o600 ∧ tf.removed = true) := by
  constructor
  · intro hsmall
    have hrun := processChunks_below_threshold
      (cfg.large_file_threshold_mb * 1024 * 1024) cfg env data [] 0 (by simpa using le_of_lt hsmall)
    simp only [AnalyzeContentUseCase.execute_stream, hrun]
    exact ⟨by trivial, by trivial⟩
  · intro hbig hfree hc hw
    obtain ⟨tf, hrun, hperms, hrem⟩ := processChunks_crossing
      (cfg.large_file_threshold_mb * 1024 * 1024) cfg env hfree hc hw data []
      (by simp) (by simpa using hbig)
    simp only [AnalyzeContentUseCase.execute_stream, hrun]
    refine ⟨by trivial, { tf with removed := true }, by trivial, ?_, by trivial⟩
    simpa using hperms

/-- A stream environment with ample free space and working storage. -/
def streamOkEnv : StreamEnv where
  free_space_mb := 10
  createOk := true
  writeOk := true
  syncOk := true
  bufferTimedOut := false
  fileTimedOut := false
  analyzeBufferResult := fun _ => .ok (⟨['a'], ['b']⟩, ['a', '/', 'b'])
  analyzeFileResult := .error (.analysisFailed ['x'])
  freshId := 0
  now := 0

/-- Witness for C3: a 2-byte payload under a 1 MB threshold spills
nothing; a 1-byte payload over a 0-byte threshold creates exactly one
owner-only spill file that is removed — here with the file classification
failing, exercising the failure path. -/
theorem stream_spill_lifecycle_witness :
    ((AnalyzeContentUseCase.execute_stream ⟨1, 0⟩ streamOkEnv ['r'] ['f']
        ([[1], [2]].map .ok)).2.created = 0 ∧
      (AnalyzeContentUseCase.execute_stream ⟨1, 0⟩ streamOkEnv ['r'] ['f']
        ([[1], [2]].map .ok)).2.temp_file = none) ∧
    ((AnalyzeContentUseCase.execute_stream ⟨0, 0⟩ streamOkEnv ['r'] ['f']
        ([[1]].map .ok)).2.created = 1 ∧
      ∃ tf, (AnalyzeContentUseCase.execute_stream ⟨0, 0⟩ streamOkEnv ['r'] ['f']
          ([[1]].map .ok)).2.temp_file = some tf ∧
        tf.perms = 0o600 ∧ tf.removed = true) :=
  ⟨(stream_spill_lifecycle ⟨1, 0⟩ streamOkEnv ['r'] ['f'] [[1], [2]]).1 (by decide),
   (stream_spill_lifecycle ⟨0, 0⟩ streamOkEnv ['r'] ['f'] [[1]]).2 (by decide)
     (by decide) rfl rfl⟩

/--
C4: when the stream crosses the threshold and the reported free space is
below the configured minimum, `execute_stream` fails with the
storage-exhaustion failure and no temp-file creation call was made: the
final state records zero creations and no spill file, partial or
otherwise.
-/
theorem stream_storage_exhaustion (cfg : AnalysisConfig) (env : StreamEnv)
    (rid fn : List Char) (data : List (List UInt8))
    (hfree : env.free_space_mb < cfg.min_free_space_mb)
    (hbig : (data.map List.length).sum > cfg.large_file_threshold_mb * 1024 * 1024) :
    (AnalyzeContentUseCase.execute_stream cfg env rid fn (data.map .ok)).1 =
      .error (.internalError ("Insufficient storage space for analysis".toList)) ∧
    (AnalyzeContentUseCase.execute_stream cfg env rid fn (data.map .ok)).2.created = 0 ∧
    (AnalyzeContentUseCase.execute_stream cfg env rid fn (data.map .ok)).2.temp_file = none := by
  obtain ⟨buf₂, hrun⟩ := processChunks_crossing_nospace
    (cfg.large_file_threshold_mb * 1024 * 1024) cfg env hfree data [] 0
    (by simp) (by simpa using hbig)
  simp only [AnalyzeContentUseCase.execute_stream, hrun]
  exact ⟨by trivial, by trivial, by trivial⟩

/-- Witness for C4: free space 0 MB under a 5 MB minimum with a 0-byte
threshold and a 1-byte payload. -/
theorem stream_storage_exhaustion_witness :
    (AnalyzeContentUseCase.execute_stream ⟨0, 5⟩
        ({ streamOkEnv with free_space_mb := 0 }) ['r'] ['f'] ([[1]].map .ok)).1 =
      .error (.internalError ("Insufficient storage space for analysis".toList)) ∧
    (AnalyzeContentUseCase.execute_stream ⟨0, 5⟩
        ({ streamOkEnv with free_space_mb := 0 }) ['r'] ['f'] ([[1]].map .ok)).2.created = 0 ∧
    (AnalyzeContentUseCase.execute_stream ⟨0, 5⟩
        ({ streamOkEnv with free_space_mb := 0 }) ['r'] ['f'] ([[1]].map .ok)).2.temp_file = none :=
  stream_storage_exhaustion ⟨0, 5⟩ ({ streamOkEnv with free_space_mb := 0 })
    ['r'] ['f'] [[1]] (by decide) (by decide)

end Magicer
